import Mathlib

/-!
Shallow embedding of `src/import/parse/fec_crude_csv.py` (Python 2).

Modelling conventions:
* Python dicts are association lists (`List (String × α)`) with unique keys
  maintained by `dictUpdate` (assignment replaces the value in place when the
  key is present, else appends), and `dlookup` for `d[k]` / `k in d`.
* A `KeyError` raised by `data[k]` is modelled by `dlookup` returning `none`;
  resolver closures therefore return `Option (String × String)`, with `none`
  standing for a raised `KeyError`.
* Python's `set(data.keys()) & self.inverted_keys` is modelled as the list of
  the data dict's keys, in the dict's insertion order, filtered by membership
  in the inverted-key table.  CPython's hash-based set iteration order is not
  observable here; insertion order (the raw record's column order) is the
  canonical choice for the embedding.
* Machine-level details (file handles, the csv module's quoting rules) are out
  of scope; lines arrive as `List String` cell lists, exactly what
  `csv.reader` hands to the Python loop.
-/

namespace FecCrude

/-- Python dict lookup `d[k]` (also used for `k in d` via `Option.isSome`).
Returns the value of the first binding of `k`, which is the unique binding
when the list was built by `dictUpdate`. -/
def dlookup (k : String) : List (String × α) → Option α
  | [] => none
  | kv :: rest => if k = kv.1 then some kv.2 else dlookup k rest

/-- Python dict assignment `d[k] = v`: replace in place when present,
append otherwise. -/
def dictUpdate (d : List (String × α)) (k : String) (v : α) : List (String × α) :=
  match d with
  | [] => [(k, v)]
  | kv :: rest => if kv.1 = k then (k, v) :: rest else kv :: dictUpdate rest k v

/-- Python `d.update(entries)`: assign each entry in order. -/
def dictUpdateList (d : List (String × α)) (entries : List (String × α)) :
    List (String × α) :=
  entries.foldl (fun acc e => dictUpdate acc e.1 e.2) d

/-- Python `dict(pairs)`: build a dict by assigning each pair in order. -/
def pyDict (pairs : List (String × String)) : List (String × String) :=
  pairs.foldl (fun d kv => dictUpdate d kv.1 kv.2) []

/-- Python `s.lower()` (ASCII data in this file). -/
def pyLower (s : String) : String := ⟨s.data.map Char.toLower⟩

/-- Python whitespace for `str.strip()`. -/
def pyWhitespace (c : Char) : Bool :=
  c == ' ' || c == '\t' || c == '\n' || c == '\r' || c == '\x0b' || c == '\x0c'

/-- Python `s.strip()`: drop whitespace from both ends. -/
def pyStrip (s : String) : String :=
  ⟨((s.data.dropWhile pyWhitespace).reverse.dropWhile pyWhitespace).reverse⟩

/-- Python `s.replace(pat, rep)` on character lists: scan left to right,
replacing each non-overlapping occurrence of `pat` (assumed non-empty).
The extra `Nat` argument is structural-recursion fuel; started at the
input's length it never runs out, because a replacement step consumes
`pat.length ≥ 1` characters. -/
def replaceAllChars (pat rep : List Char) : Nat → List Char → List Char
  | _, [] => []
  | 0, s => s
  | fuel + 1, c :: cs =>
    if pat ≠ [] ∧ pat.isPrefixOf (c :: cs) then
      rep ++ replaceAllChars pat rep fuel ((c :: cs).drop pat.length)
    else
      c :: replaceAllChars pat rep fuel cs

/-- Python `s.replace(pat, rep)` on strings. -/
def pyReplace (s pat rep : String) : String :=
  ⟨replaceAllChars pat.data rep.data s.data.length s.data⟩

/-- Line 202 of the source: `line[0].replace('Sch', 'S').replace('SH', 'H')`. -/
def pyKeyFix (s : String) : String :=
  pyReplace (pyReplace s "Sch" "S") "SH" "H"

/-- Comparison definition following the claim's words, for Claim C4: rewrite
a LEADING `"Sch"` to `"S"`. -/
def claimedSchFix (s : String) : String :=
  if "Sch".data.isPrefixOf s.data then String.mk ('S' :: s.data.drop 3) else s

/-- Comparison definition following the claim's words, for Claim C4: rewrite
a LEADING `"SH"` to `"H"`. -/
def claimedSHFix (s : String) : String :=
  if "SH".data.isPrefixOf s.data then String.mk ('H' :: s.data.drop 2) else s

/-- Comparison definition following the claim's words, for Claim C4: the two
leading-prefix fixups applied in the source's order, and only to a leading
prefix. -/
def claimedKeyFix (s : String) : String := claimedSHFix (claimedSchFix s)

/-- Line 203 of the source: `name.strip().lower().replace(' ', '_')`. -/
def normName (s : String) : String :=
  ⟨(pyLower (pyStrip s)).data.map (fun c => if c = ' ' then '_' else c)⟩

/-- Source `strip` (line 134): `text.strip()`. -/
def strip (text : String) : String := pyStrip text

/-- Source `amount` (line 141): pass through when a `'.'` is present, else
insert `'.'` before the last two characters.  Python's negative slices
`text[:-2]` / `text[-2:]` clamp at zero exactly like truncated `Nat`
subtraction in `take` / `drop`. -/
def amount (text : String) : String :=
  if text.data.contains '.' then text
  else ⟨text.data.take (text.data.length - 2) ++
        '.' :: text.data.drop (text.data.length - 2)⟩

/-- Modelled from the spec: `fixed_width.date`, whose module `fixed_width` is
imported by the source but absent from `src/`.  The spec gives
`"20080930" → "2008-09-30"` and `"20081131" → "2008-11-31"` with no calendar
validity check, i.e. dashes inserted after the year and month digits. -/
def fixedWidthDate (s : String) : String :=
  ⟨s.data.take 4 ++ '-' :: (s.data.drop 4).take 2 ++ '-' :: s.data.drop 6⟩

/-- A resolver closure produced by `Field.inverteds`: takes the raw data dict,
returns `(canonical name, value)`, or `none` for a raised `KeyError`. -/
abbrev Resolver := List (String × String) → Option (String × String)

/-- Source `Field`: accepted alias names plus an optional value formatter.
The Python `set(aka)` is modelled as the given list (its iteration order is
not observable in any claim: alias keys never collide in the field table). -/
structure Field where
  aka : List String
  formatFn : Option (String → String)

/-- Source `Field.format`: apply the formatter when present, else identity. -/
def Field.format (f : Field) (datum : String) : String :=
  match f.formatFn with
  | some g => g datum
  | none => datum

/-- One lambda from the `Field.inverteds` loop body: registered under key `k`,
it reads `data[k]` and formats it, tagging the result with the field's
canonical `name`. -/
def resolverFor (f : Field) (name : String) (k : String) : Resolver :=
  fun data =>
    match f.formatFn with
    | some g => (dlookup k data).map (fun v => (name, g v))
    | none => (dlookup k data).map (fun v => (name, v))

/-- Source `Field.inverteds`: one resolver per accepted raw name, the
canonical name itself included (`[name] + list(self._aka)`). -/
def Field.inverteds (f : Field) (name : String) : List (String × Resolver) :=
  (name :: f.aka).map (fun k => (k, resolverFor f name k))

/-- Source `FieldMapper.__init__`: union each field's `inverteds` dict into
one table (`self.inverteds.update(field.inverteds(name))`). -/
def buildInverteds (fl : List (String × Field)) : List (String × Resolver) :=
  fl.foldl (fun inv nf => dictUpdateList inv (Field.inverteds nf.2 nf.1)) []

/-- A value of the output record: either a mapped field's string or the
`original_data` dict. -/
inductive Value where
  | str (s : String)
  | origDict (d : List (String × String))
deriving DecidableEq

/-- Source `FieldMapper.map`'s iteration set
`set(data.keys()) & self.inverted_keys`, modelled in the data dict's key
order (see the header comment on set iteration order). -/
def filteredKeys (inv : List (String × Resolver)) (data : List (String × String)) :
    List String :=
  (data.map Prod.fst).filter (fun k => (dlookup k inv).isSome)

/-- The loop body of `FieldMapper.map`: look up the resolver for `f`, call
it, write its `(k, v)` result, and on a `KeyError` (`r data = none`) fall
through the `except KeyError: pass` branch.  The `dlookup f inv = none` case
cannot arise for keys from `filteredKeys` and is an identity step. -/
def mapStep (inv : List (String × Resolver)) (data : List (String × String))
    (rv : List (String × Value)) (f : String) : List (String × Value) :=
  match dlookup f inv with
  | some r =>
    match r data with
    | some kv => dictUpdate rv kv.1 (Value.str kv.2)
    | none => rv
  | none => rv

/-- The loop of `FieldMapper.map` over a given key list. -/
def mapAux (inv : List (String × Resolver)) (data : List (String × String))
    (ks : List String) (rv : List (String × Value)) : List (String × Value) :=
  ks.foldl (mapStep inv data) rv

/-- Source `FieldMapper.map`: start from `{'original_data': data}` and fold
the resolver loop over the intersected keys. -/
def mapData (inv : List (String × Resolver)) (data : List (String × String)) :
    List (String × Value) :=
  mapAux inv data (filteredKeys inv data) [("original_data", Value.origDict data)]

/-- Source `fields` table (lines 151-166). -/
def fieldsList : List (String × Field) :=
  [("date", ⟨["date_received", "contribution_date"], some fixedWidthDate⟩),
   ("candidate_fec_id", ⟨["candidate_id_number", "fec_candidate_id_number"], some strip⟩),
   ("tran_id", ⟨["transaction_id_number"], none⟩),
   ("occupation", ⟨["contributor_occupation", "indocc"], none⟩),
   ("contributor_org", ⟨["contributor_organization_name", "contrib_organization_name"], none⟩),
   ("employer", ⟨["contributor_employer", "indemp"], none⟩),
   ("amount", ⟨["contribution_amount", "amount_received", "expenditure_amount",
                "amount_of_expenditure"], some amount⟩)]

/-- The global `fieldmapper = FieldMapper(fields)`'s inverted table. -/
def fieldmapperInv : List (String × Resolver) := buildInverteds fieldsList

/-- The loop of source `headers` (lines 198-203) with its accumulator `rv`:
each row stores, under its fixed-up key, the normalized remaining column
names.  A row with no cells would raise `IndexError` at `line[0]` in Python,
modelled by `none`. -/
def headersLoadAux (rv : List (String × List String)) :
    List (List String) → Option (List (String × List String))
  | [] => some rv
  | line :: rest =>
    match line with
    | [] => none
    | key0 :: cols => headersLoadAux (dictUpdate rv (pyKeyFix key0) (cols.map normName)) rest

/-- Source `headers` (lines 196-204): fold the side file's rows into a dict. -/
def headersLoad (lines : List (List String)) : Option (List (String × List String)) :=
  headersLoadAux [] lines

/-- Source `findkey` (lines 205-208) on the key's character list: `while key:`
try the key verbatim, else drop the last character (`key[:-1]`) and retry;
falling off the loop returns `None`. -/
def findkeyChars (hmap : List (String × List String)) : List Char → Option (List String)
  | [] => none
  | c :: cs =>
    match dlookup (String.mk (c :: cs)) hmap with
    | some v => some v
    | none => findkeyChars hmap (c :: cs).dropLast
termination_by k => k.length
decreasing_by simp

/-- Source `findkey` on string keys. -/
def findkey (hmap : List (String × List String)) (key : String) : Option (List String) :=
  findkeyChars hmap key.data

/-- The error object of `raise "could not find field defs", (line[0], headermap.keys())`
(line 231). -/
inductive ReadError where
  | schemaNotFound (code : String) (keys : List String)
deriving DecidableEq

/-- Output record type of `fieldmapper.map`. -/
abbrev PyRec := List (String × Value)

/-- The per-line loop of source `readfile` (lines 222-236), after the header
line has been consumed: returns the records yielded before termination and
the error that aborted the stream, if any.  Python's `if not fieldnames`
is true both for `None` and for an empty list, hence the two error cases. -/
def readLines (hmap : List (String × List String)) :
    Bool → List (List String) → List PyRec × Option ReadError
  | _, [] => ([], none)
  | inText, line :: rest =>
    match line with
    | [] => readLines hmap inText rest
    | c0 :: _ =>
      let inText1 := if pyLower c0 = "[begintext]" then true else inText
      if inText1 = false then
        match findkey hmap c0 with
        | none => ([], some (.schemaNotFound c0 (hmap.map Prod.fst)))
        | some fns =>
          if fns = [] then ([], some (.schemaNotFound c0 (hmap.map Prod.fst)))
          else
            let r := mapData fieldmapperInv (pyDict (fns.zip line))
            let next := readLines hmap inText1 rest
            (r :: next.1, next.2)
      else
        let inText2 := if pyLower c0 = "[endtext]" then false else inText1
        readLines hmap inText2 rest

/-! ## Helper lemmas about the dict model -/

theorem dlookup_dictUpdate (d : List (String × α)) (k x : String) (v : α) :
    dlookup x (dictUpdate d k v) = if x = k then some v else dlookup x d := by
  induction d with
  | nil => simp [dictUpdate, dlookup]
  | cons kv rest ih =>
    by_cases hk : kv.1 = k
    · subst hk
      by_cases hx : x = kv.1 <;> simp [dictUpdate, dlookup, hx]
    · simp only [dictUpdate, if_neg hk]
      by_cases hx : x = kv.1
      · subst hx
        simp [dlookup, hk]
      · simp [dlookup, hx, ih]

theorem dlookup_isSome_of_mem {d : List (String × α)} {k : String}
    (h : k ∈ d.map Prod.fst) : (dlookup k d).isSome := by
  induction d with
  | nil => simp at h
  | cons kv rest ih =>
    simp only [List.map_cons, List.mem_cons] at h
    by_cases hx : k = kv.1
    · simp [dlookup, hx]
    · simp only [dlookup, if_neg hx]
      exact ih (h.resolve_left hx)

theorem mem_of_dlookup_isSome {d : List (String × α)} {k : String}
    (h : (dlookup k d).isSome) : k ∈ d.map Prod.fst := by
  induction d with
  | nil => simp [dlookup] at h
  | cons kv rest ih =>
    by_cases hx : k = kv.1
    · simp [hx]
    · simp only [dlookup, if_neg hx] at h
      simp [ih h]

theorem dlookup_dictUpdateList {d es : List (String × α)} {x : String} {r : α}
    (h : dlookup x (dictUpdateList d es) = some r) :
    (x, r) ∈ es ∨ dlookup x d = some r := by
  induction es generalizing d with
  | nil => exact Or.inr h
  | cons e es ih =>
    have h' : dlookup x (dictUpdateList (dictUpdate d e.1 e.2) es) = some r := h
    rcases ih h' with hes | hd
    · exact Or.inl (List.mem_cons_of_mem _ hes)
    · rw [dlookup_dictUpdate] at hd
      by_cases hx : x = e.1
      · rw [if_pos hx] at hd
        refine Or.inl ?_
        have : (x, r) = e := by
          cases e
          simp only [Option.some.injEq] at hd
          simp [hx, hd]
        simp [this]
      · rw [if_neg hx] at hd
        exact Or.inr hd

/-! ## Helper lemmas about resolvers and the inverted table -/

theorem mem_inverteds {f : Field} {name k : String} {r : Resolver}
    (h : (k, r) ∈ Field.inverteds f name) : r = resolverFor f name k := by
  simp only [Field.inverteds, List.mem_map] at h
  obtain ⟨k0, _, hk⟩ := h
  obtain ⟨h1, h2⟩ := Prod.mk.injEq .. ▸ hk
  simp [← h1, h2.symm]

theorem buildInverteds_lookup {fl : List (String × Field)} {k : String} {r : Resolver}
    (h : dlookup k (buildInverteds fl) = some r) :
    ∃ name f, (name, f) ∈ fl ∧ r = resolverFor f name k := by
  suffices H : ∀ (fl : List (String × Field)) (acc : List (String × Resolver)),
      dlookup k (fl.foldl (fun inv nf => dictUpdateList inv (Field.inverteds nf.2 nf.1)) acc)
        = some r →
      (∃ name f, (name, f) ∈ fl ∧ r = resolverFor f name k) ∨ dlookup k acc = some r by
    rcases H fl [] h with h' | h'
    · exact h'
    · simp [dlookup] at h'
  intro fl
  induction fl with
  | nil => exact fun acc h => Or.inr h
  | cons nf fl ih =>
    intro acc h
    rcases ih _ h with ⟨name, f, hmem, hr⟩ | hacc
    · exact Or.inl ⟨name, f, List.mem_cons_of_mem _ hmem, hr⟩
    · rcases dlookup_dictUpdateList hacc with hes | hd
      · refine Or.inl ⟨nf.1, nf.2, ?_, mem_inverteds hes⟩
        simp
      · exact Or.inr hd

theorem resolverFor_eq (f : Field) (name k : String) (data : List (String × String)) :
    resolverFor f name k data = (dlookup k data).map (fun v => (name, f.format v)) := by
  unfold resolverFor Field.format
  cases f.formatFn <;> rfl

theorem resolverFor_isSome {f : Field} {name k : String}
    {data : List (String × String)} (h : (dlookup k data).isSome) :
    (resolverFor f name k data).isSome := by
  rw [resolverFor_eq]
  rcases hd : dlookup k data with _ | v
  · rw [hd] at h
    simp at h
  · simp

theorem resolverFor_fst {f : Field} {name k : String}
    {data : List (String × String)} {kv : String × String}
    (h : resolverFor f name k data = some kv) : kv.1 = name := by
  rw [resolverFor_eq] at h
  rcases hd : dlookup k data with _ | v <;> rw [hd] at h
  · simp at h
  · simp only [Option.map_some', Option.some.injEq] at h
    exact h ▸ rfl

/-! ## Helper lemmas about the map loop -/

/-- Whether processing raw column `f` writes canonical key `x`, and with
which value. -/
def writesTo (inv : List (String × Resolver)) (data : List (String × String))
    (x : String) (f : String) : Option String :=
  (dlookup f inv).bind fun r =>
    (r data).bind fun kv => if kv.1 = x then some kv.2 else none

theorem mapStep_none {inv : List (String × Resolver)}
    {data : List (String × String)} {rv : List (String × Value)} {f : String}
    (h : dlookup f inv = none) : mapStep inv data rv f = rv := by
  unfold mapStep
  rw [h]

theorem mapStep_fail {inv : List (String × Resolver)}
    {data : List (String × String)} {rv : List (String × Value)} {f : String}
    {r : Resolver} (h1 : dlookup f inv = some r) (h2 : r data = none) :
    mapStep inv data rv f = rv := by
  unfold mapStep
  rw [h1]
  show (match r data with
    | some kv => dictUpdate rv kv.1 (Value.str kv.2)
    | none => rv) = rv
  rw [h2]

theorem mapStep_write {inv : List (String × Resolver)}
    {data : List (String × String)} {rv : List (String × Value)} {f : String}
    {r : Resolver} {kv : String × String} (h1 : dlookup f inv = some r)
    (h2 : r data = some kv) :
    mapStep inv data rv f = dictUpdate rv kv.1 (Value.str kv.2) := by
  unfold mapStep
  rw [h1]
  show (match r data with
    | some kv => dictUpdate rv kv.1 (Value.str kv.2)
    | none => rv) = _
  rw [h2]

theorem mapStep_lookup_ne {inv : List (String × Resolver)}
    {data : List (String × String)} {rv : List (String × Value)} {f x : String}
    (hw : ∀ r kv, dlookup f inv = some r → r data = some kv → kv.1 ≠ x) :
    dlookup x (mapStep inv data rv f) = dlookup x rv := by
  rcases h1 : dlookup f inv with _ | r
  · rw [mapStep_none h1]
  · rcases h2 : r data with _ | kv
    · rw [mapStep_fail h1 h2]
    · rw [mapStep_write h1 h2, dlookup_dictUpdate, if_neg]
      intro hx
      exact hw r kv h1 h2 (hx ▸ rfl)

theorem mapAux_lookup_of_no_writes {inv : List (String × Resolver)}
    {data : List (String × String)} {x : String} :
    ∀ {ks : List String} {rv : List (String × Value)},
    (∀ f ∈ ks, ∀ r kv, dlookup f inv = some r → r data = some kv → kv.1 ≠ x) →
    dlookup x (mapAux inv data ks rv) = dlookup x rv := by
  intro ks
  induction ks with
  | nil => intro rv _; rfl
  | cons f ks ih =>
    intro rv hw
    have h1 : dlookup x (mapAux inv data ks (mapStep inv data rv f)) =
        dlookup x (mapStep inv data rv f) :=
      ih (fun g hg => hw g (List.mem_cons_of_mem f hg))
    calc dlookup x (mapAux inv data (f :: ks) rv)
        = dlookup x (mapAux inv data ks (mapStep inv data rv f)) := rfl
      _ = dlookup x (mapStep inv data rv f) := h1
      _ = dlookup x rv := mapStep_lookup_ne (hw f (List.mem_cons_self f ks))

theorem mapAux_lookup_provenance {inv : List (String × Resolver)}
    {data : List (String × String)} {x : String} {v : Value} :
    ∀ {ks : List String} {rv : List (String × Value)},
    dlookup x (mapAux inv data ks rv) = some v →
    dlookup x rv = some v ∨
      ∃ f ∈ ks, ∃ r s, dlookup f inv = some r ∧ r data = some (x, s) := by
  intro ks
  induction ks with
  | nil => exact fun h => Or.inl h
  | cons f ks ih =>
    intro rv h
    rcases ih h with hstep | ⟨g, hg, r, s, hr, hrd⟩
    · rcases h1 : dlookup f inv with _ | r
      · rw [mapStep_none h1] at hstep
        exact Or.inl hstep
      · rcases h2 : r data with _ | kv
        · rw [mapStep_fail h1 h2] at hstep
          exact Or.inl hstep
        · rw [mapStep_write h1 h2, dlookup_dictUpdate] at hstep
          by_cases hx : x = kv.1
          · refine Or.inr ⟨f, List.mem_cons_self f ks, r, kv.2, h1, ?_⟩
            rw [h2, hx]
          · rw [if_neg hx] at hstep
            exact Or.inl hstep
    · exact Or.inr ⟨g, List.mem_cons_of_mem f hg, r, s, hr, hrd⟩

theorem mapAux_skip_failing {inv : List (String × Resolver)}
    {data : List (String × String)} {f : String} {r : Resolver}
    (hf : dlookup f inv = some r) (hfail : r data = none) :
    ∀ (ks : List String) (rv : List (String × Value)),
    mapAux inv data ks rv =
      mapAux inv data (ks.filter (fun k => decide (k ≠ f))) rv := by
  intro ks
  induction ks with
  | nil => intro rv; rfl
  | cons k ks ih =>
    intro rv
    by_cases hk : k = f
    · subst hk
      have hstep : mapStep inv data rv k = rv := mapStep_fail hf hfail
      calc mapAux inv data (k :: ks) rv
          = mapAux inv data ks (mapStep inv data rv k) := rfl
        _ = mapAux inv data ks rv := by rw [hstep]
        _ = mapAux inv data (ks.filter (fun x => decide (x ≠ k))) rv := ih rv
        _ = mapAux inv data ((k :: ks).filter (fun x => decide (x ≠ k))) rv := by
            simp [List.filter_cons]
    · calc mapAux inv data (k :: ks) rv
          = mapAux inv data ks (mapStep inv data rv k) := rfl
        _ = mapAux inv data (ks.filter (fun x => decide (x ≠ f)))
              (mapStep inv data rv k) := ih _
        _ = mapAux inv data ((k :: ks).filter (fun x => decide (x ≠ f))) rv := by
            simp [List.filter_cons, hk]
            rfl

theorem mapAux_lookup_last (inv : List (String × Resolver))
    (data : List (String × String)) (x : String) :
    ∀ (ks : List String) (rv : List (String × Value)),
    dlookup x (mapAux inv data ks rv) =
      match (ks.filterMap (writesTo inv data x)).getLast? with
      | some s => some (Value.str s)
      | none => dlookup x rv := by
  intro ks
  induction ks using List.reverseRecOn with
  | nil => intro rv; rfl
  | append_singleton ks f ih =>
    intro rv
    have hfold : mapAux inv data (ks ++ [f]) rv =
        mapStep inv data (mapAux inv data ks rv) f := by
      unfold mapAux
      rw [List.foldl_append]
      rfl
    rcases hw : writesTo inv data x f with _ | s
    · have hfm : (ks ++ [f]).filterMap (writesTo inv data x) =
          ks.filterMap (writesTo inv data x) := by
        rw [List.filterMap_append]
        simp [hw]
      rw [hfold, hfm, ← ih rv]
      unfold writesTo at hw
      apply mapStep_lookup_ne
      intro r kv h1 h2 hx
      rw [h1, Option.some_bind, h2, Option.some_bind, if_pos hx] at hw
      exact Option.noConfusion hw
    · have hfm : (ks ++ [f]).filterMap (writesTo inv data x) =
          ks.filterMap (writesTo inv data x) ++ [s] := by
        rw [List.filterMap_append]
        simp [hw]
      rw [hfold, hfm, List.getLast?_concat]
      unfold writesTo at hw
      rcases h1 : dlookup f inv with _ | r <;> rw [h1] at hw
      · exact Option.noConfusion hw
      · rw [Option.some_bind] at hw
        rcases h2 : r data with _ | kv <;> rw [h2] at hw
        · exact Option.noConfusion hw
        · rw [Option.some_bind] at hw
          by_cases hx : kv.1 = x
          · rw [if_pos hx] at hw
            rw [mapStep_write h1 h2, dlookup_dictUpdate, if_pos hx.symm]
            rw [Option.some.injEq] at hw
            rw [hw]
          · rw [if_neg hx] at hw
            exact Option.noConfusion hw

/-! ## Helper lemmas about findkey -/

theorem findkeyChars_nil (hmap : List (String × List String)) :
    findkeyChars hmap [] = none := by
  rw [findkeyChars]

theorem findkeyChars_cons (hmap : List (String × List String)) (c : Char)
    (cs : List Char) :
    findkeyChars hmap (c :: cs) =
      match dlookup (String.mk (c :: cs)) hmap with
      | some v => some v
      | none => findkeyChars hmap (c :: cs).dropLast := by
  rw [findkeyChars]

theorem findkeyChars_spec (hmap : List (String × List String)) :
    ∀ (N : Nat) (k : List Char), k.length ≤ N →
    (findkeyChars hmap k = none ↔
      ∀ n, n ≤ k.length → 0 < n → dlookup (String.mk (k.take n)) hmap = none)
    ∧ (∀ v, findkeyChars hmap k = some v →
      ∃ n, 0 < n ∧ n ≤ k.length ∧ dlookup (String.mk (k.take n)) hmap = some v ∧
        ∀ m, m ≤ k.length → n < m → dlookup (String.mk (k.take m)) hmap = none) := by
  intro N
  induction N with
  | zero =>
    intro k hk
    have hnil : k = [] := List.length_eq_zero.mp (Nat.le_zero.mp hk)
    subst hnil
    constructor
    · simp [findkeyChars_nil]
    · intro v hv
      rw [findkeyChars_nil] at hv
      exact Option.noConfusion hv
  | succ N ih =>
    intro k hk
    match k with
    | [] =>
      constructor
      · simp [findkeyChars_nil]
      · intro v hv
        rw [findkeyChars_nil] at hv
        exact Option.noConfusion hv
    | c :: cs =>
      have hlen : (c :: cs).length = cs.length + 1 := rfl
      have hdl : (c :: cs).dropLast.length = cs.length := by
        simp [List.length_dropLast]
      have htake : ∀ n, n ≤ cs.length →
          (c :: cs).dropLast.take n = (c :: cs).take n := by
        intro n hn
        rw [List.dropLast_eq_take, List.take_take]
        congr 1
        simp only [hlen, Nat.add_sub_cancel]
        omega
      have htop : (c :: cs).take (cs.length + 1) = c :: cs := by
        rw [← hlen]
        exact List.take_length _
      rcases hd : dlookup (String.mk (c :: cs)) hmap with _ | v0
      · have heq : findkeyChars hmap (c :: cs) = findkeyChars hmap (c :: cs).dropLast := by
          rw [findkeyChars_cons, hd]
        have IH := ih (c :: cs).dropLast (by rw [hdl]; omega)
        constructor
        · rw [heq, IH.1]
          constructor
          · intro h n hn hpos
            rcases Nat.lt_or_ge n (cs.length + 1) with hlt | hge
            · have hn' : n ≤ cs.length := by omega
              rw [← htake n hn']
              exact h n (by rw [hdl]; omega) hpos
            · have : n = cs.length + 1 := by omega
              subst this
              rw [htop]
              exact hd
          · intro h n hn hpos
            rw [hdl] at hn
            rw [htake n hn]
            exact h n (by rw [hlen]; omega) hpos
        · intro v hv
          rw [heq] at hv
          obtain ⟨n, hpos, hn, hfound, hnone⟩ := IH.2 v hv
          rw [hdl] at hn
          refine ⟨n, hpos, by rw [hlen]; omega, by rw [← htake n hn]; exact hfound, ?_⟩
          intro m hm hnm
          rcases Nat.lt_or_ge m (cs.length + 1) with hlt | hge
          · have hm' : m ≤ cs.length := by omega
            rw [← htake m hm']
            exact hnone m (by rw [hdl]; omega) hnm
          · have : m = cs.length + 1 := by omega
            subst this
            rw [htop]
            exact hd
      · have heq : findkeyChars hmap (c :: cs) = some v0 := by
          rw [findkeyChars_cons, hd]
        constructor
        · rw [heq]
          constructor
          · intro h
            exact Option.noConfusion h
          · intro h
            have := h (cs.length + 1) (by rw [hlen]) (Nat.succ_pos _)
            rw [htop, hd] at this
            exact Option.noConfusion this
        · intro v hv
          rw [heq, Option.some.injEq] at hv
          refine ⟨cs.length + 1, Nat.succ_pos _, by rw [hlen], ?_, ?_⟩
          · rw [htop, hd, hv]
          · intro m hm hnm
            rw [hlen] at hm
            omega

/-! ## Helper lemmas about headers loading -/

theorem dlookup_dictUpdate_isSome {d : List (String × α)} {x k : String} {v : α}
    (h : (dlookup x d).isSome) : (dlookup x (dictUpdate d k v)).isSome := by
  rw [dlookup_dictUpdate]
  by_cases hx : x = k <;> simp [hx, h]

theorem dlookup_dictUpdate_self (d : List (String × α)) (k : String) (v : α) :
    dlookup k (dictUpdate d k v) = some v := by
  rw [dlookup_dictUpdate, if_pos rfl]

theorem mem_dictUpdate {d : List (String × α)} {k : String} {v : α} {p : String × α}
    (h : p ∈ dictUpdate d k v) : p = (k, v) ∨ p ∈ d := by
  induction d with
  | nil =>
    simp [dictUpdate] at h
    exact Or.inl h
  | cons kv rest ih =>
    by_cases hk : kv.1 = k
    · simp only [dictUpdate, if_pos hk, List.mem_cons] at h
      rcases h with h | h
      · exact Or.inl h
      · exact Or.inr (List.mem_cons_of_mem _ h)
    · simp only [dictUpdate, if_neg hk, List.mem_cons] at h
      rcases h with h | h
      · exact Or.inr (by simp [h])
      · rcases ih h with h' | h'
        · exact Or.inl h'
        · exact Or.inr (List.mem_cons_of_mem _ h')

theorem headersLoadAux_spec :
    ∀ (lines : List (List String)) (rv m : List (String × List String)),
    headersLoadAux rv lines = some m →
    (∀ x, (dlookup x rv).isSome → (dlookup x m).isSome)
    ∧ (∀ line ∈ lines, ∃ c0 cs, line = c0 :: cs ∧ (dlookup (pyKeyFix c0) m).isSome)
    ∧ (∀ p, p ∈ m → p ∈ rv ∨ ∃ c0 cs, (c0 :: cs) ∈ lines ∧ p.1 = pyKeyFix c0) := by
  intro lines
  induction lines with
  | nil =>
    intro rv m h
    have hm : rv = m := by
      simp only [headersLoadAux, Option.some.injEq] at h
      exact h
    subst hm
    exact ⟨fun x hx => hx, fun line h => absurd h (List.not_mem_nil line),
      fun p hp => Or.inl hp⟩
  | cons line rest ih =>
    intro rv m h
    match line with
    | [] =>
      exact Option.noConfusion h
    | key0 :: cols =>
      have h' : headersLoadAux (dictUpdate rv (pyKeyFix key0) (cols.map normName)) rest
          = some m := h
      obtain ⟨hA, hB, hC⟩ := ih _ m h'
      refine ⟨?_, ?_, ?_⟩
      · intro x hx
        exact hA x (dlookup_dictUpdate_isSome hx)
      · intro l hl
        rcases List.mem_cons.mp hl with hl | hl
        · refine ⟨key0, cols, hl, ?_⟩
          refine hA _ ?_
          rw [dlookup_dictUpdate_self]
          rfl
        · obtain ⟨c0, cs, hlc, hsome⟩ := hB l hl
          exact ⟨c0, cs, hlc, hsome⟩
      · intro p hp
        rcases hC p hp with hp' | ⟨c0, cs, hmem, hkey⟩
        · rcases mem_dictUpdate hp' with hnew | hold
          · refine Or.inr ⟨key0, cols, List.mem_cons_self _ _, ?_⟩
            rw [hnew]
          · exact Or.inl hold
        · exact Or.inr ⟨c0, cs, List.mem_cons_of_mem _ hmem, hkey⟩

/-! ## Helper lemmas about the stream reader -/

theorem readLines_nil (hmap : List (String × List String)) (inText : Bool) :
    readLines hmap inText [] = ([], none) := rfl

theorem readLines_empty_line (hmap : List (String × List String)) (inText : Bool)
    (rest : List (List String)) :
    readLines hmap inText ([] :: rest) = readLines hmap inText rest := rfl

theorem readLines_begin (hmap : List (String × List String)) (inText : Bool)
    {c0 : String} (cs : List String) (rest : List (List String))
    (h : pyLower c0 = "[begintext]") :
    readLines hmap inText ((c0 :: cs) :: rest) = readLines hmap true rest := by
  simp [readLines, h]

theorem readLines_normal_err (hmap : List (String × List String))
    {c0 : String} (cs : List String) (rest : List (List String))
    (h : pyLower c0 ≠ "[begintext]")
    (hf : findkey hmap c0 = none ∨ findkey hmap c0 = some []) :
    readLines hmap false ((c0 :: cs) :: rest) =
      ([], some (.schemaNotFound c0 (hmap.map Prod.fst))) := by
  rcases hf with hf | hf <;> simp [readLines, h, hf]

theorem readLines_normal_yield (hmap : List (String × List String))
    {c0 : String} (cs : List String) (rest : List (List String))
    (h : pyLower c0 ≠ "[begintext]")
    {fns : List String} (hf : findkey hmap c0 = some fns) (hne : fns ≠ []) :
    readLines hmap false ((c0 :: cs) :: rest) =
      (mapData fieldmapperInv (pyDict (fns.zip (c0 :: cs))) :: (readLines hmap false rest).1,
       (readLines hmap false rest).2) := by
  simp [readLines, h, hf, hne]

theorem readLines_intext_end (hmap : List (String × List String))
    {c0 : String} (cs : List String) (rest : List (List String))
    (h : pyLower c0 = "[endtext]") :
    readLines hmap true ((c0 :: cs) :: rest) = readLines hmap false rest := by
  have hb : pyLower c0 ≠ "[begintext]" := by
    rw [h]
    decide
  simp [readLines, h, hb]

theorem readLines_intext_skip (hmap : List (String × List String))
    {c0 : String} (cs : List String) (rest : List (List String))
    (h : pyLower c0 ≠ "[endtext]") :
    readLines hmap true ((c0 :: cs) :: rest) = readLines hmap true rest := by
  simp [readLines, h]

/-! ## Remaining shared helper lemmas -/

theorem dlookup_map_graph {α : Type} {g : String → α} {l : List String}
    {k : String} {r : α}
    (h : dlookup k (l.map (fun x => (x, g x))) = some r) : r = g k := by
  induction l with
  | nil => exact Option.noConfusion h
  | cons x xs ih =>
    simp only [List.map_cons, dlookup] at h
    by_cases hx : k = x
    · subst hx
      rw [if_pos rfl] at h
      exact (Option.some.inj h).symm
    · rw [if_neg hx] at h
      exact ih h

theorem fieldsList_canonical_names {name : String} {fld : Field}
    (h : (name, fld) ∈ fieldsList) : name ≠ "original_data" := by
  simp only [fieldsList, List.mem_cons, List.not_mem_nil, or_false] at h
  rcases h with h | h | h | h | h | h | h <;>
    · rw [Prod.mk.injEq] at h
      rw [h.1]
      decide

/-! ## Claim theorems -/

/-- Claim C9: the amount formatter returns its input unchanged whenever the
input contains a `'.'`; otherwise it inserts a `'.'` before the last two
characters (the suffix of length `min 2 len`, matching Python's clamping
negative slices); the three concrete examples from the spec hold. -/
theorem c9_amount_format :
    (∀ t : String, t.data.contains '.' = true → amount t = t)
    ∧ (∀ t : String, t.data.contains '.' = false →
        (amount t).data =
          t.data.take (t.data.length - 2) ++ '.' :: t.data.drop (t.data.length - 2)
        ∧ (t.data.drop (t.data.length - 2)).length = min 2 t.data.length)
    ∧ amount "50.00" = "50.00" ∧ amount "6000" = "60.00"
    ∧ amount "600000" = "6000.00" := by
  refine ⟨?_, ?_, by decide, by decide, by decide⟩
  · intro t h
    unfold amount
    rw [if_pos h]
  · intro t h
    unfold amount
    rw [if_neg (by rw [h]; exact Bool.false_ne_true)]
    refine ⟨rfl, ?_⟩
    rw [List.length_drop]
    omega

/-- Claim C9 witness: the theorem applied at the concrete inputs `"50.00"`
and `"6000"`. -/
theorem c9_amount_format_witness :
    amount "50.00" = "50.00"
    ∧ (amount "6000").data = ['6', '0', '.', '0', '0'] := by
  constructor
  · exact c9_amount_format.1 "50.00" (by decide)
  · have h := (c9_amount_format.2.1 "6000" (by decide)).1
    rw [h]
    decide

/-- Claim C1 (amended): `findkey` returns the entry of the key itself when
the key is non-empty and present; otherwise the entry of the longest
non-empty prefix that is present (candidates are scanned longest-first, one
stripped character at a time); `none` when no non-empty prefix is present.
The spec's concrete fallback examples hold.  The only correction: the empty
key always yields `none`, even when `""` is registered, because the
`while key` loop tests the key's truthiness before any lookup. -/
theorem c1_findkey_fallback :
    (∀ (hmap : List (String × List String)) (key : String) (v : List String),
      key ≠ "" → dlookup key hmap = some v → findkey hmap key = some v)
    ∧ (∀ (hmap : List (String × List String)) (key : String),
      findkey hmap key = none ↔
        ∀ n, n ≤ key.data.length → 0 < n →
          dlookup (String.mk (key.data.take n)) hmap = none)
    ∧ (∀ (hmap : List (String × List String)) (key : String) (v : List String),
      findkey hmap key = some v →
        ∃ n, 0 < n ∧ n ≤ key.data.length ∧
          dlookup (String.mk (key.data.take n)) hmap = some v ∧
          ∀ m, m ≤ key.data.length → n < m →
            dlookup (String.mk (key.data.take m)) hmap = none)
    ∧ findkey [("SA", ["colA1", "colA2"]), ("S", ["colS"])] "SA1"
        = some ["colA1", "colA2"]
    ∧ findkey [("SA", ["colA1", "colA2"]), ("S", ["colS"])] "Z" = none := by
  refine ⟨?_, ?_, ?_, ?_, ?_⟩
  · intro hmap key v hne h
    rcases hd : key.data with _ | ⟨c, cs⟩
    · exact absurd (String.ext (by rw [hd])) hne
    · show findkeyChars hmap key.data = some v
      have hk : String.mk (c :: cs) = key := String.ext (by rw [hd])
      rw [hd, findkeyChars_cons, hk, h]
  · intro hmap key
    exact (findkeyChars_spec hmap key.data.length key.data le_rfl).1
  · intro hmap key v h
    exact (findkeyChars_spec hmap key.data.length key.data le_rfl).2 v h
  · show findkeyChars _ "SA1".data = _
    rw [show "SA1".data = ['S', 'A', '1'] from rfl, findkeyChars_cons,
      (by decide : dlookup (String.mk ['S', 'A', '1'])
        [("SA", ["colA1", "colA2"]), ("S", ["colS"])] = none),
      show (['S', 'A', '1'] : List Char).dropLast = ['S', 'A'] from rfl,
      findkeyChars_cons,
      (by decide : dlookup (String.mk ['S', 'A'])
        [("SA", ["colA1", "colA2"]), ("S", ["colS"])] = some ["colA1", "colA2"])]
  · show findkeyChars _ "Z".data = _
    rw [show "Z".data = ['Z'] from rfl, findkeyChars_cons,
      (by decide : dlookup (String.mk ['Z'])
        [("SA", ["colA1", "colA2"]), ("S", ["colS"])] = none),
      show (['Z'] : List Char).dropLast = ([] : List Char) from rfl,
      findkeyChars_nil]

/-- Claim C1 counterexample: with `""` registered, looking up the empty key
returns `none` although the key itself is present, contradicting the
verbatim clause of the claim at the empty key. -/
theorem c1_empty_key_counterexample :
    dlookup "" [("", ["x"])] = some ["x"]
    ∧ findkey [("", ["x"])] "" = none :=
  ⟨by decide, findkeyChars_nil _⟩

/-- Claim C1 witness: the amended theorem applied at concrete inputs. -/
theorem c1_findkey_fallback_witness :
    findkey [("S", ["colS"])] "S" = some ["colS"] :=
  c1_findkey_fallback.1 [("S", ["colS"])] "S" ["colS"] (by decide) (by decide)

/-- Claim C4 (amended): each loaded row is stored under `line[0]` with EVERY
occurrence of `"Sch"` replaced by `"S"` and then every occurrence of `"SH"`
replaced by `"H"` (Python `str.replace` is not limited to a leading prefix),
and the stored keys are exactly those; on the documented typo forms, where
the typo is a leading prefix, this coincides with the claim's prefix fixup. -/
theorem c4_header_key_fixup :
    (∀ (lines : List (List String)) (m : List (String × List String)),
      headersLoad lines = some m →
      (∀ line, line ∈ lines →
        ∃ c0 cs, line = c0 :: cs ∧ (dlookup (pyKeyFix c0) m).isSome)
      ∧ (∀ p, p ∈ m → ∃ c0 cs, (c0 :: cs) ∈ lines ∧ p.1 = pyKeyFix c0))
    ∧ pyKeyFix "SchA" = "SA" ∧ pyKeyFix "SH1" = "H1"
    ∧ claimedKeyFix "SchA" = "SA" ∧ claimedKeyFix "SH1" = "H1" := by
  refine ⟨?_, by decide, by decide, by decide, by decide⟩
  intro lines m h
  obtain ⟨_, hB, hC⟩ := headersLoadAux_spec lines [] m h
  refine ⟨hB, ?_⟩
  intro p hp
  rcases hC p hp with hp' | h'
  · exact absurd hp' (List.not_mem_nil p)
  · exact h'

/-- Claim C4 counterexample: on the row key `"ASch"`, whose typo substring is
not a leading prefix, the code stores the row under `"AS"` while the claim's
prefix-only fixup would leave `"ASch"` unchanged; the claimed key is absent
from the loaded map. -/
theorem c4_counterexample :
    headersLoad [["ASch", "B C"]] = some [("AS", ["b_c"])]
    ∧ claimedKeyFix "ASch" = "ASch"
    ∧ dlookup "ASch" [("AS", ["b_c"])] = none :=
  ⟨by decide, by decide, by decide⟩

/-- Claim C4 witness: the amended theorem applied to a concrete header file
whose row keys carry both documented typos. -/
theorem c4_header_key_fixup_witness :
    ∃ c0 cs, (["SchA", "Col A"] : List String) = c0 :: cs
      ∧ (dlookup (pyKeyFix c0) [("SA", ["col_a"]), ("H1", ["x"])]).isSome :=
  (c4_header_key_fixup.1 [["SchA", "Col A"], ["SH1", "x"]]
    [("SA", ["col_a"]), ("H1", ["x"])] (by decide)).1
    ["SchA", "Col A"] (by decide)

/-- Claim C3: when one or more raw columns present in the input resolve to
the same canonical field `x`, the value stored for `x` is the one
contributed by the LAST such column in the raw record's column order
(Python's set-intersection iteration is modelled in that order, see the
header comment); alias declaration order plays no role.  Concretely, with
the program's mapper the later `amount_received` column overrides the
earlier `contribution_amount` column. -/
theorem c3_last_match_wins :
    (∀ (inv : List (String × Resolver)) (data : List (String × String))
       (x s : String),
      ((filteredKeys inv data).filterMap (writesTo inv data x)).getLast? = some s →
      dlookup x (mapData inv data) = some (Value.str s))
    ∧ dlookup "amount"
        (mapData fieldmapperInv
          [("contribution_amount", "100"), ("amount_received", "9999")])
        = some (Value.str "99.99") := by
  refine ⟨?_, by decide⟩
  intro inv data x s h
  have H := mapAux_lookup_last inv data x (filteredKeys inv data)
    [("original_data", Value.origDict data)]
  rw [show mapData inv data = mapAux inv data (filteredKeys inv data)
    [("original_data", Value.origDict data)] from rfl, H, h]

/-- Claim C3 witness: the theorem applied at a concrete record carrying two
aliases of `amount`; the later column's formatted value wins. -/
theorem c3_last_match_wins_witness :
    dlookup "amount"
      (mapData fieldmapperInv
        [("date_received", "20080930"), ("contribution_amount", "100"),
         ("expenditure_amount", "555")]) = some (Value.str "5.55") :=
  c3_last_match_wins.1 fieldmapperInv
    [("date_received", "20080930"), ("contribution_amount", "100"),
     ("expenditure_amount", "555")] "amount" "5.55" (by decide)

/-- Claim C5: `original_data` in the mapped record is exactly the raw input
dict, for every input; and every canonical (non-`original_data`) entry of
the output was written by the resolver of some raw column that is present in
the input and registered in the alias index — a raw name matching no alias
contributes nothing outside `original_data`. -/
theorem c5_original_data_preserved :
    ∀ (data : List (String × String)),
    dlookup "original_data" (mapData fieldmapperInv data)
      = some (Value.origDict data)
    ∧ (∀ x v, dlookup x (mapData fieldmapperInv data) = some v →
        x ≠ "original_data" →
        ∃ f r s, f ∈ data.map Prod.fst ∧ dlookup f fieldmapperInv = some r ∧
          r data = some (x, s)) := by
  intro data
  constructor
  · have hw : ∀ f ∈ filteredKeys fieldmapperInv data, ∀ r kv,
        dlookup f fieldmapperInv = some r → r data = some kv →
        kv.1 ≠ "original_data" := by
      intro f _ r kv h1 h2
      obtain ⟨name, fld, hmem, hr⟩ := buildInverteds_lookup h1
      rw [hr] at h2
      have hname : kv.1 = name := resolverFor_fst h2
      rw [hname]
      exact fieldsList_canonical_names hmem
    have hinit : dlookup "original_data" [("original_data", Value.origDict data)]
        = some (Value.origDict data) := by
      simp [dlookup]
    exact (mapAux_lookup_of_no_writes hw).trans hinit
  · intro x v hx hne
    rcases mapAux_lookup_provenance hx with hinit | ⟨f, hf, r, s, h1, h2⟩
    · simp only [dlookup, if_neg hne] at hinit
      exact Option.noConfusion hinit
    · have hfk := List.mem_filter.mp hf
      exact ⟨f, r, s, hfk.1, h1, h2⟩

/-- Claim C5 witness: the theorem's second part applied at a concrete record
with one unrecognized and one recognized column. -/
theorem c5_original_data_preserved_witness :
    ∃ f r s, f ∈ ([("weird_field", "34"), ("tran_id", "99")].map Prod.fst)
      ∧ dlookup f fieldmapperInv = some r
      ∧ r [("weird_field", "34"), ("tran_id", "99")] = some ("tran_id", s) :=
  (c5_original_data_preserved [("weird_field", "34"), ("tran_id", "99")]).2
    "tran_id" (Value.str "99") (by decide) (by decide)

/-- Claim C6: if the resolver invoked for raw column `f` raises a key-absence
error (modelled by returning `none`), `FieldMapper.map` still returns a
record, equal to processing the intersected key list with every occurrence
of `f` dropped: the single field is omitted and all remaining fields are
still processed over the unchanged initial record. -/
theorem c6_resolver_failure_skipped :
    ∀ (inv : List (String × Resolver)) (data : List (String × String))
      (f : String) (r : Resolver),
    dlookup f inv = some r → r data = none →
    mapData inv data =
      mapAux inv data
        ((filteredKeys inv data).filter (fun k => decide (k ≠ f)))
        [("original_data", Value.origDict data)] := by
  intro inv data f r h1 h2
  exact mapAux_skip_failing h1 h2 _ _

/-- Claim C6 witness: the theorem applied to a two-resolver table whose
first resolver always fails; the record is still produced, with the failing
field skipped and the other field processed. -/
theorem c6_resolver_failure_skipped_witness :
    mapData
        [("a", fun _ => none),
         ("b", fun d => (dlookup "b" d).map (fun v => ("B", v)))]
        [("a", "1"), ("b", "2")] =
      mapAux
        [("a", fun _ => none),
         ("b", fun d => (dlookup "b" d).map (fun v => ("B", v)))]
        [("a", "1"), ("b", "2")]
        ((filteredKeys
            [("a", fun _ => none),
             ("b", fun d => (dlookup "b" d).map (fun v => ("B", v)))]
            [("a", "1"), ("b", "2")]).filter (fun k => decide (k ≠ "a")))
        [("original_data", Value.origDict [("a", "1"), ("b", "2")])] :=
  c6_resolver_failure_skipped
    [("a", fun _ => none),
     ("b", fun d => (dlookup "b" d).map (fun v => ("B", v)))]
    [("a", "1"), ("b", "2")] "a" (fun _ => none) rfl rfl

/-- Claim C10: every resolver produced by `Field.inverteds` under key `k` is
exactly the closure reading `data[k]`, and `FieldMapper.map` invokes a
resolver only for keys in the intersection of the data's keys and the
inverted table's keys, so every invoked resolver finds its key and returns a
value (formatters are total functions in this embedding, which is the
claim's totality hypothesis): the `except KeyError` branch is unreachable. -/
theorem c10_except_branch_unreachable :
    (∀ (f : Field) (name k : String) (r : Resolver),
      dlookup k (Field.inverteds f name) = some r → r = resolverFor f name k)
    ∧ (∀ (fl : List (String × Field)) (data : List (String × String))
        (f : String),
      f ∈ filteredKeys (buildInverteds fl) data →
      ∃ r, dlookup f (buildInverteds fl) = some r ∧ (r data).isSome) := by
  constructor
  · intro f name k r h
    exact dlookup_map_graph h
  · intro fl data f hf
    have hfk := List.mem_filter.mp hf
    have hsome : (dlookup f (buildInverteds fl)).isSome = true := hfk.2
    rcases hr : dlookup f (buildInverteds fl) with _ | r
    · rw [hr] at hsome
      exact Bool.noConfusion hsome
    · obtain ⟨name, fld, hmem, hres⟩ := buildInverteds_lookup hr
      refine ⟨r, rfl, ?_⟩
      rw [hres]
      exact resolverFor_isSome (dlookup_isSome_of_mem hfk.1)

/-- Claim C10 witness: the theorem's second part applied to the program's
field table at a record carrying `tran_id`. -/
theorem c10_except_branch_unreachable_witness :
    ∃ r, dlookup "tran_id" (buildInverteds fieldsList) = some r
      ∧ (r [("tran_id", "7")]).isSome :=
  c10_except_branch_unreachable.2 fieldsList [("tran_id", "7")] "tran_id"
    (by decide)

/-- Claim C2 (amended): a line whose first cell lowercases to
`"[begintext]"` transitions the reader into the text-block state but is NOT
dispatched as a normal record: no record is emitted for the marker line, and
processing continues on the rest of the stream in the text-block state. -/
theorem c2_begin_marker :
    ∀ (hmap : List (String × List String)) (inText : Bool) (c0 : String)
      (cs : List String) (rest : List (List String)),
    pyLower c0 = "[begintext]" →
    readLines hmap inText ((c0 :: cs) :: rest) = readLines hmap true rest :=
  fun hmap inText _ cs rest h => readLines_begin hmap inText cs rest h

/-- Claim C2 counterexample: a stream holding exactly one begin-marker line
emits no record at all (`[]`), refuting the claim that a normalized record
is also emitted for the begin-marker line. -/
theorem c2_counterexample :
    readLines [("SA", ["a"])] false [["[begintext]"]] = ([], none) := by
  rw [readLines_begin [("SA", ["a"])] false [] [] (by decide), readLines_nil]

/-- Claim C2 witness: the amended theorem applied at a concrete mixed-case
marker line. -/
theorem c2_begin_marker_witness :
    readLines [("SA", ["a"])] false [["[BeginText]", "x"], ["SA", "y"]] =
      readLines [("SA", ["a"])] true [["SA", "y"]] :=
  c2_begin_marker [("SA", ["a"])] false "[BeginText]" ["x"] [["SA", "y"]]
    (by decide)

/-- Claim C7 (amended): outside a text block, a non-empty non-marker line
raises the fatal stream error iff Python's `not fieldnames` is true of the
prefix-fallback lookup result, i.e. the lookup returns `none` OR an empty
column list; when it raises, no record is emitted for that line and the rest
of the stream is not processed; otherwise the line yields exactly one record
and contributes no error. -/
theorem c7_schema_not_found_fatal :
    ∀ (hmap : List (String × List String)) (c0 : String) (cs : List String)
      (rest : List (List String)),
    pyLower c0 ≠ "[begintext]" →
    ((findkey hmap c0 = none ∨ findkey hmap c0 = some []) →
      readLines hmap false ((c0 :: cs) :: rest) =
        ([], some (ReadError.schemaNotFound c0 (hmap.map Prod.fst))))
    ∧ (∀ fns, findkey hmap c0 = some fns → fns ≠ [] →
      readLines hmap false ((c0 :: cs) :: rest) =
        (mapData fieldmapperInv (pyDict (fns.zip (c0 :: cs)))
            :: (readLines hmap false rest).1,
         (readLines hmap false rest).2)) :=
  fun hmap _ cs rest hb =>
    ⟨fun hf => readLines_normal_err hmap cs rest hb hf,
     fun _ hf hne => readLines_normal_yield hmap cs rest hb hf hne⟩

/-- Claim C7 counterexample: with header map `{"SA": []}` (an empty header
row is producible by the loader), the record-type code `"SA"` DOES resolve
to a schema — `findkey` returns `some []`, not `none` — yet the reader
raises the fatal error: the error condition is Python falsiness of the
result, not only lookup failure. -/
theorem c7_counterexample :
    findkey [("SA", [])] "SA" = some []
    ∧ readLines [("SA", [])] false [["SA", "x"], ["SB", "y"]] =
        ([], some (ReadError.schemaNotFound "SA" ["SA"])) := by
  have hfk : findkey [("SA", [])] "SA" = some [] := by
    show findkeyChars [("SA", [])] "SA".data = some []
    rw [show "SA".data = ['S', 'A'] from rfl, findkeyChars_cons,
      (by decide : dlookup (String.mk ['S', 'A']) [("SA", [])]
        = some ([] : List String))]
  refine ⟨hfk, ?_⟩
  rw [readLines_normal_err [("SA", [])] ["x"] [["SB", "y"]] (by decide)
    (Or.inr hfk)]
  rfl

/-- Claim C7 witness: the amended theorem applied at a code with no schema
(fatal, stream truncated) and at a code with a non-empty schema (record
emitted, no error). -/
theorem c7_schema_not_found_fatal_witness :
    readLines [("SA", ["h1", "h2"])] false [["ZZ", "1"], ["SA", "2"]] =
      ([], some (ReadError.schemaNotFound "ZZ" ["SA"]))
    ∧ readLines [("SA", ["h1", "h2"])] false [["SA", "1"]] =
      (mapData fieldmapperInv (pyDict (["h1", "h2"].zip ["SA", "1"]))
          :: (readLines [("SA", ["h1", "h2"])] false []).1,
       (readLines [("SA", ["h1", "h2"])] false []).2) := by
  have hzz : findkey [("SA", ["h1", "h2"])] "ZZ" = none := by
    show findkeyChars [("SA", ["h1", "h2"])] "ZZ".data = none
    rw [show "ZZ".data = ['Z', 'Z'] from rfl, findkeyChars_cons,
      (by decide : dlookup (String.mk ['Z', 'Z']) [("SA", ["h1", "h2"])] = none),
      show (['Z', 'Z'] : List Char).dropLast = ['Z'] from rfl, findkeyChars_cons,
      (by decide : dlookup (String.mk ['Z']) [("SA", ["h1", "h2"])] = none),
      show (['Z'] : List Char).dropLast = ([] : List Char) from rfl,
      findkeyChars_nil]
  have hsa : findkey [("SA", ["h1", "h2"])] "SA" = some ["h1", "h2"] := by
    show findkeyChars [("SA", ["h1", "h2"])] "SA".data = some ["h1", "h2"]
    rw [show "SA".data = ['S', 'A'] from rfl, findkeyChars_cons,
      (by decide : dlookup (String.mk ['S', 'A']) [("SA", ["h1", "h2"])]
        = some ["h1", "h2"])]
  constructor
  · exact (c7_schema_not_found_fatal [("SA", ["h1", "h2"])] "ZZ" ["1"]
      [["SA", "2"]] (by decide)).1 (Or.inl hzz)
  · exact (c7_schema_not_found_fatal [("SA", ["h1", "h2"])] "SA" ["1"] []
      (by decide)).2 ["h1", "h2"] hsa (by decide)

/-- Claim C8: while the reader is in the text-block state no line emits a
record: an empty line is skipped, a non-`[endtext]` line is discarded with
the state unchanged, and an `[endtext]` line is itself discarded while
returning the state to normal so that the rest is normalized again; a whole
block of such lines up to and including the end marker therefore contributes
no records. -/
theorem c8_text_block_discards :
    (∀ (hmap : List (String × List String)) (rest : List (List String)),
      readLines hmap true ([] :: rest) = readLines hmap true rest)
    ∧ (∀ (hmap : List (String × List String)) (c0 : String) (cs : List String)
        (rest : List (List String)), pyLower c0 ≠ "[endtext]" →
      readLines hmap true ((c0 :: cs) :: rest) = readLines hmap true rest)
    ∧ (∀ (hmap : List (String × List String)) (c0 : String) (cs : List String)
        (rest : List (List String)), pyLower c0 = "[endtext]" →
      readLines hmap true ((c0 :: cs) :: rest) = readLines hmap false rest)
    ∧ (∀ (hmap : List (String × List String)) (junk : List (List String)),
      (∀ l ∈ junk, l = [] ∨ ∃ d0 ds, l = d0 :: ds ∧ pyLower d0 ≠ "[endtext]") →
      ∀ (e0 : String) (es : List String) (rest : List (List String)),
      pyLower e0 = "[endtext]" →
      readLines hmap true (junk ++ (e0 :: es) :: rest) =
        readLines hmap false rest) := by
  refine ⟨fun hmap rest => readLines_empty_line hmap true rest,
    fun hmap _ cs rest h => readLines_intext_skip hmap cs rest h,
    fun hmap _ cs rest h => readLines_intext_end hmap cs rest h, ?_⟩
  intro hmap junk
  induction junk with
  | nil =>
    intro _ e0 es rest hend
    exact readLines_intext_end hmap es rest hend
  | cons l junk ih =>
    intro hjunk e0 es rest hend
    have hl := hjunk l (List.mem_cons_self l junk)
    have htail := fun l' hl' => hjunk l' (List.mem_cons_of_mem l hl')
    rcases hl with hnil | ⟨d0, ds, hds, hne⟩
    · rw [hnil, List.cons_append, readLines_empty_line]
      exact ih htail e0 es rest hend
    · rw [hds, List.cons_append, readLines_intext_skip hmap ds _ hne]
      exact ih htail e0 es rest hend

/-- Claim C8 witness: the theorem's block form applied to a concrete block
of one junk line and one blank line closed by a mixed-case end marker. -/
theorem c8_text_block_discards_witness :
    readLines [("SA", ["a"])] true
        [["note", "x"], [], ["[EndText]"], ["SA", "1"]] =
      readLines [("SA", ["a"])] false [["SA", "1"]] :=
  c8_text_block_discards.2.2.2 [("SA", ["a"])] [["note", "x"], []]
    (by
      intro l hl
      rcases List.mem_cons.mp hl with h | h
      · exact Or.inr ⟨"note", ["x"], h, by decide⟩
      · rcases List.mem_cons.mp h with h' | h'
        · exact Or.inl h'
        · exact absurd h' (List.not_mem_nil l))
    "[EndText]" [] [["SA", "1"]] (by decide)

end FecCrude
